import Mathlib

/-!
Shallow embedding of the feed-to-fact ingestion and aggregation pipeline of
the Halifax bus on-time-performance tracker.

Embedded source files:
* `src/config.py` — on-time thresholds and `is_on_time`.
* `src/processing/trip_updates.py` — `parse_service_date`, `process_trip_updates`.
* `src/models.py` — the `StopDelayEvent` fact record.
* `src/db/queries.py` / `src/db/schema.py` — `insert_stop_delay_events`
  (INSERT OR REPLACE against the natural primary key).
* `src/aggregation/daily_summary.py` — `aggregate_daily_route_summary`,
  `aggregate_hourly_route_summary`, `run_daily_aggregation`,
  `backfill_aggregations`.

Conventions: Python `None`-able values become `Option`; the DuckDB tables
become Lean lists of record structures; SQL aggregate statements become pure
Lean functions over those lists; `datetime` values are carried as records of
the fields the code reads (epoch seconds, hour, weekday); FLOAT statistics are
computed in `Rat` (exact rational arithmetic standing in for doubles — no
claim quantifies rounding).
-/

namespace HalifaxOTP

/-! ## src/config.py

The thresholds are read from the environment with defaults `-60` and `300`;
we embed the default configuration. -/

/-- Embedding of `EARLY_THRESHOLD = int(os.getenv("EARLY_THRESHOLD", "-60"))` (default). -/
def EARLY_THRESHOLD : Int := -60

/-- Embedding of `LATE_THRESHOLD = int(os.getenv("LATE_THRESHOLD", "300"))` (default). -/
def LATE_THRESHOLD : Int := 300

/-- Embedding of `config.is_on_time`: `None` for an unknown delay, otherwise the boolean
`EARLY_THRESHOLD <= delay_seconds <= LATE_THRESHOLD`. -/
def is_on_time (delay_seconds : Option Int) : Option Bool :=
  match delay_seconds with
  | none => none
  | some d => some (decide (EARLY_THRESHOLD ≤ d ∧ d ≤ LATE_THRESHOLD))

/-! ## Calendar dates

`datetime.date` values are embedded as year/month/day triples.  `Date.valid`
captures the invariant Python `date` objects satisfy by construction. -/

structure Date where
  year : Nat
  month : Nat
  day : Nat
deriving DecidableEq, Repr

/-- Gregorian leap-year rule, as used by `datetime`. -/
def isLeapYear (y : Nat) : Bool :=
  (y % 4 = 0 && y % 100 != 0) || y % 400 = 0

/-- Days in a month, as validated by the `datetime.date` constructor. -/
def daysInMonth (y m : Nat) : Nat :=
  if m = 2 then (if isLeapYear y then 29 else 28)
  else if m = 4 ∨ m = 6 ∨ m = 9 ∨ m = 11 then 30
  else 31

/-- The invariant every constructed Python `date` satisfies
(`datetime.MINYEAR = 1`, month in 1..12, day in 1..days-in-month). -/
def Date.valid (dt : Date) : Prop :=
  1 ≤ dt.year ∧ 1 ≤ dt.month ∧ dt.month ≤ 12 ∧
  1 ≤ dt.day ∧ dt.day ≤ daysInMonth dt.year dt.month

instance (dt : Date) : Decidable dt.valid := by
  unfold Date.valid; infer_instance

/-- Python `date` comparison (lexicographic on year/month/day), as a `Bool`
mirroring the `current_date <= end_date` loop test. -/
def Date.le (a b : Date) : Bool :=
  decide (a.year < b.year ∨ (a.year = b.year ∧
    (a.month < b.month ∨ (a.month = b.month ∧ a.day ≤ b.day))))

/-- Embedding of `current_date + timedelta(days=1)`: the next calendar day. -/
def Date.succ (dt : Date) : Date :=
  if dt.day < daysInMonth dt.year dt.month then
    { dt with day := dt.day + 1 }
  else if dt.month < 12 then
    ⟨dt.year, dt.month + 1, 1⟩
  else
    ⟨dt.year + 1, 1, 1⟩

/-- A strictly monotone (on valid dates) linearisation of dates, used to
measure loop progress: every month is padded to 31 slots. -/
def Date.rank (dt : Date) : Nat :=
  dt.year * 372 + (dt.month - 1) * 31 + (dt.day - 1)

/-! ## `parse_service_date` (src/processing/trip_updates.py)

`datetime.strptime(date_str, "%Y%m%d").date()`.  CPython compiles the format
to the regex `(?P<Y>\d\d\d\d)(?P<m>1[0-2]|0[1-9]|[1-9])(?P<d>3[01]|[12]\d|0[1-9]|[1-9]| [1-9])`
(the day group ends with a space-then-digit alternative) matched from the
start of the string (alternatives tried left to right, with backtracking;
trailing unconsumed characters raise), and then the `datetime` constructor
separately validates the day against the month and rejects year 0.  A
`ValueError` at any stage makes the caller skip the trip.  We embed that
regex by cases on the string length (6, 7 or 8 characters are the only
lengths the pattern can consume). -/

/-- Numeric value of a decimal digit character. -/
def digitVal (c : Char) : Nat := c.toNat - 48

/-- The year group `\d\d\d\d`. -/
def matchYear (a b c d : Char) : Option Nat :=
  if a.isDigit ∧ b.isDigit ∧ c.isDigit ∧ d.isDigit then
    some (digitVal a * 1000 + digitVal b * 100 + digitVal c * 10 + digitVal d)
  else none

/-- Two-character month alternatives `1[0-2]|0[1-9]`. -/
def matchMonth2 (a b : Char) : Option Nat :=
  if a = '1' ∧ (b = '0' ∨ b = '1' ∨ b = '2') then some (10 + digitVal b)
  else if a = '0' ∧ b.isDigit ∧ b ≠ '0' then some (digitVal b)
  else none

/-- One-character month/day alternative `[1-9]`. -/
def matchDigit19 (a : Char) : Option Nat :=
  if a.isDigit ∧ a ≠ '0' then some (digitVal a) else none

/-- Two-character day alternatives `3[01]|[12]\d|0[1-9]| [1-9]`; the last
alternative is a space (character 32) followed by a nonzero digit, which
CPython accepts as a blank-padded day. -/
def matchDay2 (a b : Char) : Option Nat :=
  if a = '3' ∧ (b = '0' ∨ b = '1') then some (30 + digitVal b)
  else if (a = '1' ∨ a = '2') ∧ b.isDigit then some (digitVal a * 10 + digitVal b)
  else if a = '0' ∧ b.isDigit ∧ b ≠ '0' then some (digitVal b)
  else if a = Char.ofNat 32 ∧ b.isDigit ∧ b ≠ '0' then some (digitVal b)
  else none

/-- Full-string regex match for `%Y%m%d`, including the backtracking order:
for seven characters the engine prefers a two-character month, falling back
to a one-character month with a two-character day. -/
def matchYMD : List Char → Option (Nat × Nat × Nat)
  | [y1, y2, y3, y4, m1, d1] =>
    match matchYear y1 y2 y3 y4, matchDigit19 m1, matchDigit19 d1 with
    | some y, some m, some d => some (y, m, d)
    | _, _, _ => none
  | [y1, y2, y3, y4, c1, c2, c3] =>
    match matchYear y1 y2 y3 y4 with
    | none => none
    | some y =>
      match matchMonth2 c1 c2, matchDigit19 c3 with
      | some m, some d => some (y, m, d)
      | _, _ =>
        match matchDigit19 c1, matchDay2 c2 c3 with
        | some m, some d => some (y, m, d)
        | _, _ => none
  | [y1, y2, y3, y4, m1, m2, d1, d2] =>
    match matchYear y1 y2 y3 y4, matchMonth2 m1 m2, matchDay2 d1 d2 with
    | some y, some m, some d => some (y, m, d)
    | _, _, _ => none
  | _ => none

/-- Embedding of `parse_service_date(date_str)`: strict `YYYYMMDD` parsing; `none` models
the `ValueError` raised on a malformed token or an invalid calendar day. -/
def parse_service_date (s : String) : Option Date :=
  match matchYMD s.toList with
  | none => none
  | some (y, m, d) =>
    if 1 ≤ y ∧ 1 ≤ d ∧ d ≤ daysInMonth y m then some ⟨y, m, d⟩ else none

/-! ## Timestamps

A `datetime` is carried as the record of the fields `process_trip_updates`
reads from it: `.hour` and `.weekday()` plus an epoch identity.
`datetime.fromtimestamp` is injective, so predicted arrival/departure times
and the feed header timestamp are carried as their raw epoch seconds. -/

structure DateTime where
  epochSeconds : Int
  hour : Nat
  weekday : Nat
deriving DecidableEq, Repr

/-! ## GTFS-RT feed messages (the protobuf fields the extractor reads)

Proto2 optional fields (checked with `HasField`) become `Option`;
`trip_id` is accessed without a presence check, so it stays a plain
string (proto default `""` when absent on the wire). -/

/-- An `arrival`/`departure` sub-message: optional delay and optional time. -/
structure StopTimeEvent where
  delay : Option Int
  time : Option Int
deriving DecidableEq, Repr

structure StopTimeUpdate where
  stop_id : Option String
  stop_sequence : Option Nat
  arrival : Option StopTimeEvent
  departure : Option StopTimeEvent
deriving DecidableEq, Repr

structure TripDescriptor where
  trip_id : String
  route_id : Option String
  direction_id : Option Nat
  start_date : Option String
deriving DecidableEq, Repr

structure VehicleDescriptor where
  id : Option String
  label : Option String
deriving DecidableEq, Repr

structure TripUpdate where
  trip : TripDescriptor
  vehicle : Option VehicleDescriptor
  stop_time_update : List StopTimeUpdate
deriving DecidableEq, Repr

structure FeedEntity where
  trip_update : Option TripUpdate
deriving DecidableEq, Repr

structure FeedMessage where
  header_timestamp : Int
  entity : List FeedEntity
deriving DecidableEq, Repr

/-! ## `StopDelayEvent` (src/models.py) -/

structure StopDelayEvent where
  observed_at : DateTime
  trip_id : String
  stop_id : String
  stop_sequence : Nat
  service_date : Date
  route_id : String
  direction_id : Option Nat
  vehicle_id : Option String
  arrival_delay : Option Int
  departure_delay : Option Int
  predicted_arrival : Option Int
  predicted_departure : Option Int
  feed_timestamp : Int
  hour_of_day : Nat
  day_of_week : Nat
  is_on_time : Option Bool
deriving DecidableEq, Repr

/-! ## `process_trip_updates` (src/processing/trip_updates.py)

The single `datetime.now()` read at the top of the function is passed in as
the `observed_at` parameter.  Python truthiness tests on strings
(`if not route_id`, `if not stop_id`) reject both `None` and `""`. -/

/-- Python falsiness of an optional string (`None` or empty). -/
def strFalsy : Option String → Bool
  | none => true
  | some s => s.isEmpty

/-- The body of the inner `for stu in trip_update.stop_time_update` loop:
`none` models `continue` (no event appended). -/
def processStopTimeUpdate (observed_at : DateTime) (feed_timestamp : Int)
    (trip_id route_id : String) (direction_id : Option Nat)
    (vehicle_id : Option String) (service_date : Date)
    (stu : StopTimeUpdate) : Option StopDelayEvent :=
  match stu.stop_id, stu.stop_sequence with
  | some sid, some seq =>
    if sid.isEmpty then none
    else
      let arrival_delay := match stu.arrival with
        | some a => a.delay
        | none => none
      let predicted_arrival := match stu.arrival with
        | some a => a.time
        | none => none
      let departure_delay := match stu.departure with
        | some dep => dep.delay
        | none => none
      let predicted_departure := match stu.departure with
        | some dep => dep.time
        | none => none
      -- `delay_for_otp = arrival_delay if arrival_delay is not None else departure_delay`
      let delay_for_otp := match arrival_delay with
        | some d => some d
        | none => departure_delay
      some {
        observed_at := observed_at
        trip_id := trip_id
        stop_id := sid
        stop_sequence := seq
        service_date := service_date
        route_id := route_id
        direction_id := direction_id
        vehicle_id := vehicle_id
        arrival_delay := arrival_delay
        departure_delay := departure_delay
        predicted_arrival := predicted_arrival
        predicted_departure := predicted_departure
        feed_timestamp := feed_timestamp
        hour_of_day := observed_at.hour
        day_of_week := observed_at.weekday
        is_on_time := is_on_time delay_for_otp
      }
  | _, _ => none

/-- The body of the outer `for entity in feed.entity` loop, for an entity
that does carry a `trip_update`; `[]` models `continue` for the whole trip. -/
def processTripUpdate (observed_at : DateTime) (feed_timestamp : Int)
    (tu : TripUpdate) : List StopDelayEvent :=
  let trip := tu.trip
  -- service_date: absent start_date, or ValueError from parse_service_date,
  -- both leave service_date None → `continue`
  let service_date := match trip.start_date with
    | some s => parse_service_date s
    | none => none
  match service_date with
  | none => []
  | some sd =>
    -- `if not route_id: continue`
    if strFalsy trip.route_id then []
    else
      let route_id := trip.route_id.getD ""
      -- vehicle id fallback chain: id, else label, else None
      let vehicle_id := match tu.vehicle with
        | some v =>
          (match v.id with
           | some i => some i
           | none => v.label)
        | none => none
      tu.stop_time_update.filterMap
        (processStopTimeUpdate observed_at feed_timestamp trip.trip_id route_id
          trip.direction_id vehicle_id sd)

/-- Embedding of `process_trip_updates(feed)` with the wall-clock read made explicit. -/
def process_trip_updates (feed : FeedMessage) (observed_at : DateTime) :
    List StopDelayEvent :=
  let feed_timestamp := feed.header_timestamp
  feed.entity.flatMap (fun entity =>
    match entity.trip_update with
    | none => []
    | some tu => processTripUpdate observed_at feed_timestamp tu)

/-! ## Fact store (src/db/schema.py, src/db/queries.py)

`stop_delay_events` has `PRIMARY KEY (trip_id, stop_id, stop_sequence,
service_date)`; `insert_stop_delay_events` runs `INSERT OR REPLACE`, so a
row with the key of an existing row replaces it.  The table is a list of
rows (row order carries no meaning in SQL). -/

/-- The natural composite primary key of `stop_delay_events`. -/
def naturalKey (e : StopDelayEvent) : String × String × Nat × Date :=
  (e.trip_id, e.stop_id, e.stop_sequence, e.service_date)

/-- One `INSERT OR REPLACE`: drop any row with the same primary key, then
add the new row. -/
def upsertEvent (table : List StopDelayEvent) (e : StopDelayEvent) :
    List StopDelayEvent :=
  table.filter (fun r => !decide (naturalKey r = naturalKey e)) ++ [e]

/-- Embedding of `insert_stop_delay_events(conn, events)`: `executemany` upserts the
events in order and returns `len(events)`. -/
def insert_stop_delay_events (table : List StopDelayEvent)
    (events : List StopDelayEvent) : List StopDelayEvent × Nat :=
  (events.foldl upsertEvent table, events.length)

/-! ## Summary stores (src/db/schema.py) -/

structure DailyRouteSummary where
  service_date : Date
  route_id : String
  total_observations : Nat
  on_time_count : Nat
  early_count : Nat
  late_count : Nat
  avg_delay_seconds : Rat
  median_delay_seconds : Rat
  p95_delay_seconds : Rat
  max_delay_seconds : Int
  min_delay_seconds : Int
  on_time_percentage : Rat
  unique_trips : Nat
  unique_vehicles : Nat
  unique_stops : Nat
deriving DecidableEq, Repr

structure HourlyRouteSummary where
  service_date : Date
  route_id : String
  hour_of_day : Nat
  total_observations : Nat
  on_time_count : Nat
  avg_delay_seconds : Rat
  on_time_percentage : Rat
deriving DecidableEq, Repr

/-- The database state the aggregation job touches. -/
structure DB where
  stop_delay_events : List StopDelayEvent
  daily_route_summary : List DailyRouteSummary
  hourly_route_summary : List HourlyRouteSummary
deriving DecidableEq, Repr

/-! ## SQL aggregate helpers

`SUM(CASE WHEN c THEN 1 ELSE 0 END)` is a count of the rows satisfying `c`
(SQL `NULL` comparisons fall to the ELSE branch); `COUNT(DISTINCT x)`
ignores NULLs and counts distinct values; `MEDIAN` on integers and
`PERCENTILE_CONT(q)` interpolate linearly in the sorted list. -/

/-- First-occurrence deduplication (the distinct values of a column). -/
def dedup {α : Type} [DecidableEq α] (l : List α) : List α :=
  l.foldl (fun acc x => if x ∈ acc then acc else acc ++ [x]) []

/-- Floor of a nonnegative rational, as a `Nat`. -/
def ratFloorNat (x : Rat) : Nat := x.num.toNat / x.den

/-- Ceiling of a nonnegative rational, as a `Nat`. -/
def ratCeilNat (x : Rat) : Nat :=
  if x.den = 1 then x.num.toNat else x.num.toNat / x.den + 1

/-- Embedding of `PERCENTILE_CONT(q) WITHIN GROUP (ORDER BY ...)`: linear interpolation
at position `q * (n - 1)` of the sorted values. -/
def percentile_cont (q : Rat) (l : List Int) : Rat :=
  let s := l.mergeSort (fun a b => decide (a ≤ b))
  let n := s.length
  if n = 0 then 0
  else
    let h : Rat := q * ((n : Rat) - 1)
    let lo := ratFloorNat h
    let hi := ratCeilNat h
    let vlo : Rat := ((s.getD lo 0 : Int) : Rat)
    let vhi : Rat := ((s.getD hi 0 : Int) : Rat)
    vlo + (h - (lo : Rat)) * (vhi - vlo)

/-- Embedding of `MAX(...)` over a (nonempty) group. -/
def listMax (l : List Int) : Int := l.foldl max (l.headD 0)

/-- Embedding of `MIN(...)` over a (nonempty) group. -/
def listMin (l : List Int) : Int := l.foldl min (l.headD 0)

/-- Embedding of `CASE WHEN arrival_delay < EARLY_THRESHOLD THEN 1 ELSE 0`
(NULL comparisons take the ELSE branch). -/
def isEarlyRow (e : StopDelayEvent) : Bool :=
  match e.arrival_delay with
  | some d => decide (d < EARLY_THRESHOLD)
  | none => false

/-- Embedding of `CASE WHEN arrival_delay > LATE_THRESHOLD THEN 1 ELSE 0`. -/
def isLateRow (e : StopDelayEvent) : Bool :=
  match e.arrival_delay with
  | some d => decide (d > LATE_THRESHOLD)
  | none => false

/-- Embedding of `CASE WHEN is_on_time THEN 1 ELSE 0` (NULL is not true). -/
def isOnTimeRow (e : StopDelayEvent) : Bool :=
  e.is_on_time = some true

/-! ## `aggregate_daily_route_summary` (src/aggregation/daily_summary.py) -/

/-- The `WHERE service_date = ? AND arrival_delay IS NOT NULL` population. -/
def dailyPopulation (facts : List StopDelayEvent) (d : Date) :
    List StopDelayEvent :=
  facts.filter (fun e => decide (e.service_date = d) && !decide (e.arrival_delay = none))

/-- One output row of the daily `INSERT ... SELECT ... GROUP BY` for the
group `g` of population rows sharing `route_id = r`. -/
def mkDailySummary (d : Date) (r : String) (g : List StopDelayEvent) :
    DailyRouteSummary :=
  let delays := g.filterMap (fun e => e.arrival_delay)
  let onTime := (g.filter isOnTimeRow).length
  { service_date := d
    route_id := r
    total_observations := g.length
    on_time_count := onTime
    early_count := (g.filter isEarlyRow).length
    late_count := (g.filter isLateRow).length
    avg_delay_seconds := ((delays.sum : Int) : Rat) / (delays.length : Rat)
    median_delay_seconds := percentile_cont (1 / 2) delays
    p95_delay_seconds := percentile_cont (19 / 20) delays
    max_delay_seconds := listMax delays
    min_delay_seconds := listMin delays
    on_time_percentage := ((onTime : Rat) / (g.length : Rat)) * 100
    unique_trips := (dedup (g.map (fun e => e.trip_id))).length
    unique_vehicles := (dedup (g.filterMap (fun e => e.vehicle_id))).length
    unique_stops := (dedup (g.map (fun e => e.stop_id))).length }

/-- The rows the daily `INSERT ... SELECT` statement computes for a date:
one `DailyRouteSummary` per distinct `route_id` in the population. -/
def computeDailySummaries (facts : List StopDelayEvent) (d : Date) :
    List DailyRouteSummary :=
  let rows := dailyPopulation facts d
  (dedup (rows.map (fun e => e.route_id))).map
    (fun r => mkDailySummary d r (rows.filter (fun e => decide (e.route_id = r))))

/-- Embedding of `aggregate_daily_route_summary(conn, service_date)`: DELETE the date's
existing summaries, INSERT the freshly computed ones, return the
`SELECT COUNT(*)` of the date's rows. -/
def aggregate_daily_route_summary (db : DB) (d : Date) : DB × Nat :=
  let afterDelete :=
    { db with daily_route_summary :=
        db.daily_route_summary.filter (fun s => !decide (s.service_date = d)) }
  let newRows := computeDailySummaries afterDelete.stop_delay_events d
  let afterInsert :=
    { afterDelete with daily_route_summary :=
        afterDelete.daily_route_summary ++ newRows }
  (afterInsert,
   (afterInsert.daily_route_summary.filter (fun s => decide (s.service_date = d))).length)

/-! ## `aggregate_hourly_route_summary` -/

/-- One output row of the hourly `INSERT ... SELECT ... GROUP BY` for the
group `g` sharing `(route_id, hour_of_day) = (r, h)`. -/
def mkHourlySummary (d : Date) (r : String) (h : Nat)
    (g : List StopDelayEvent) : HourlyRouteSummary :=
  let delays := g.filterMap (fun e => e.arrival_delay)
  let onTime := (g.filter isOnTimeRow).length
  { service_date := d
    route_id := r
    hour_of_day := h
    total_observations := g.length
    on_time_count := onTime
    avg_delay_seconds := ((delays.sum : Int) : Rat) / (delays.length : Rat)
    on_time_percentage := ((onTime : Rat) / (g.length : Rat)) * 100 }

/-- The rows the hourly `INSERT ... SELECT` computes for a date: one row per
distinct `(route_id, hour_of_day)` pair in the population. -/
def computeHourlySummaries (facts : List StopDelayEvent) (d : Date) :
    List HourlyRouteSummary :=
  let rows := dailyPopulation facts d
  (dedup (rows.map (fun e => (e.route_id, e.hour_of_day)))).map
    (fun k => mkHourlySummary d k.1 k.2
      (rows.filter (fun e => decide (e.route_id = k.1) && decide (e.hour_of_day = k.2))))

/-- Embedding of `aggregate_hourly_route_summary(conn, service_date)`. -/
def aggregate_hourly_route_summary (db : DB) (d : Date) : DB × Nat :=
  let afterDelete :=
    { db with hourly_route_summary :=
        db.hourly_route_summary.filter (fun s => !decide (s.service_date = d)) }
  let newRows := computeHourlySummaries afterDelete.stop_delay_events d
  let afterInsert :=
    { afterDelete with hourly_route_summary :=
        afterDelete.hourly_route_summary ++ newRows }
  (afterInsert,
   (afterInsert.hourly_route_summary.filter (fun s => decide (s.service_date = d))).length)

/-- The per-date result record returned by `run_daily_aggregation`. -/
structure AggResult where
  date : Date
  daily_route_summaries : Nat
  hourly_route_summaries : Nat
deriving DecidableEq, Repr

/-- Embedding of `run_daily_aggregation(target_date, conn)`: daily aggregation, then
hourly aggregation, returning both counts. -/
def run_daily_aggregation (db : DB) (target_date : Date) : DB × AggResult :=
  let (db₁, daily_count) := aggregate_daily_route_summary db target_date
  let (db₂, hourly_count) := aggregate_hourly_route_summary db₁ target_date
  (db₂, ⟨target_date, daily_count, hourly_count⟩)

/-! ## `backfill_aggregations` (src/aggregation/daily_summary.py)

The source loops `while current_date <= end_date`, calling
`run_daily_aggregation(current_date, conn)` and advancing by one day; an
exception raised by an aggregation propagates out of the loop (the `finally`
block only closes the connection).  We embed the loop in two steps: the
ascending date range the `while` loop visits (built with the same
`le`/`succ` recursion, on fuel bounded through `Date.rank`), and the
sequential traversal that stops at the first raising date.

The storage engine's possible runtime error is external to the code; it is
modelled by an oracle `failDates` listing the dates whose
`run_daily_aggregation` call raises, a raising call performing no state
change (the spec's backfill scenario: the failing day's rows are not
created). -/

/-- The dates `current_date` takes, oldest first:
`cur, cur+1day, ..., end`.  Fuel-based recursion; `Date.rank` strictly
increases along `Date.succ` on valid dates, so the fuel chosen in
`dateRange` suffices. -/
def dateRangeFuel : Nat → Date → Date → List Date
  | 0, _, _ => []
  | fuel + 1, cur, endD =>
    if cur.le endD then cur :: dateRangeFuel fuel cur.succ endD else []

/-- The inclusive day range `[start, endD]`, ascending. -/
def dateRange (start endD : Date) : List Date :=
  dateRangeFuel (endD.rank + 1 - start.rank) start endD

/-- Sequential traversal of the (remaining) backfill dates: each successful
date appends its `run_daily_aggregation` result; the first date in
`failDates` raises, stopping the loop and reporting the failing date. -/
def backfillLoop (failDates : List Date) :
    List Date → DB → DB × List AggResult × Option Date
  | [], db => (db, [], none)
  | d :: ds, db =>
    if d ∈ failDates then (db, [], some d)
    else
      let step := run_daily_aggregation db d
      let rest := backfillLoop failDates ds step.1
      (rest.1, step.2 :: rest.2.1, rest.2.2)

/-- Embedding of `backfill_aggregations(start_date, end_date, conn)` under the failure
oracle: the final database state, the per-date results accumulated before
any failure, and the date whose aggregation raised (if any). -/
def backfill_aggregations (failDates : List Date) (start endD : Date)
    (db : DB) : DB × List AggResult × Option Date :=
  backfillLoop failDates (dateRange start endD) db

/-- Specification device: the failure-free traversal of a list of dates,
used to describe what `backfillLoop` does before its first failing date. -/
def backfillOk : List Date → DB → DB × List AggResult
  | [], db => (db, [])
  | d :: ds, db =>
    let step := run_daily_aggregation db d
    let rest := backfillOk ds step.1
    (rest.1, step.2 :: rest.2)

/-- The dates a backfill from `start` to `endD` visits before reaching the
date `f`. -/
def processedDates (start endD f : Date) : List Date :=
  (dateRange start endD).takeWhile (fun x => decide (x ≠ f))

/-! ## Concrete fixtures used by witness theorems -/

/-- A poll instant: 14:00 on a Monday. -/
def obsW : DateTime := ⟨1705330800, 14, 0⟩

/-- A stop-time update with a 120-second arrival delay. -/
def stuW : StopTimeUpdate := ⟨some "S1", some 1, some ⟨some 120, none⟩, none⟩

/-- A fully-populated trip update for route R1 on 2024-01-15. -/
def tuW : TripUpdate := ⟨⟨"T1", some "R1", none, some "20240115"⟩, none, [stuW]⟩

/-- A feed holding just the trip update `tuW`. -/
def feedW : FeedMessage := ⟨1705330795, [⟨some tuW⟩]⟩

/-- The single observation `process_trip_updates feedW obsW` emits. -/
def eventW : StopDelayEvent :=
  { observed_at := obsW
    trip_id := "T1"
    stop_id := "S1"
    stop_sequence := 1
    service_date := ⟨2024, 1, 15⟩
    route_id := "R1"
    direction_id := none
    vehicle_id := none
    arrival_delay := some 120
    departure_delay := none
    predicted_arrival := none
    predicted_departure := none
    feed_timestamp := 1705330795
    hour_of_day := 14
    day_of_week := 0
    is_on_time := some true }

/-- A trip update with no route id but a valid stop-time update. -/
def tuNoRoute : TripUpdate :=
  ⟨⟨"T2", none, none, some "20240115"⟩, none, [stuW]⟩

/-- A stop-time update with no stop sequence. -/
def stuNoSeq : StopTimeUpdate := ⟨some "S9", none, some ⟨some 50, none⟩, none⟩

/-- A later observation sharing the natural key of `eventW` but carrying a
different (late) delay. -/
def eventW2 : StopDelayEvent :=
  { eventW with
    observed_at := ⟨1705330860, 14, 0⟩
    arrival_delay := some 400
    is_on_time := some false }

/-- Backfill fixture: first day of a three-day range. -/
def startW : Date := ⟨2024, 1, 15⟩

/-- Backfill fixture: last day of a three-day range. -/
def endW : Date := ⟨2024, 1, 17⟩

/-- Backfill fixture: the middle day, whose aggregation raises. -/
def failW : Date := ⟨2024, 1, 16⟩

/-- Backfill fixture: a database holding the single fixture observation. -/
def dbW : DB := ⟨[eventW], [], []⟩

/-! # Theorems -/

/-- Scenario check: the fixture feed produces exactly `eventW`. -/
theorem process_feedW : process_trip_updates feedW obsW = [eventW] := by
  decide

/-- Characterisation of every observation the extractor emits from one
stop-time update: the record's fields are copied from the loop context, the
time buckets come from `observed_at`, and the classification is computed
from the stored arrival delay, falling back to the stored departure delay. -/
theorem processStopTimeUpdate_spec
    {observed_at : DateTime} {ft : Int} {tid rid : String} {dir : Option Nat}
    {vid : Option String} {sd : Date} {stu : StopTimeUpdate}
    {e : StopDelayEvent}
    (h : processStopTimeUpdate observed_at ft tid rid dir vid sd stu = some e) :
    e.observed_at = observed_at ∧
    e.hour_of_day = observed_at.hour ∧
    e.day_of_week = observed_at.weekday ∧
    e.stop_id ≠ "" ∧
    stu.stop_id = some e.stop_id ∧
    stu.stop_sequence = some e.stop_sequence ∧
    e.is_on_time = is_on_time
      (match e.arrival_delay with
       | some d => some d
       | none => e.departure_delay) := by
  unfold processStopTimeUpdate at h
  split at h
  next sid seq hsid hseq =>
    split at h
    · cases h
    next hemp =>
      injection h with h
      subst h
      refine ⟨rfl, rfl, rfl, ?_, ?_, ?_, ?_⟩
      · intro habs
        have hs : sid = "" := habs
        subst hs
        exact hemp rfl
      · rw [hsid]
      · rw [hseq]
      · cases stu.arrival <;> simp
  next => cases h

/-- Characterisation of every observation emitted for a whole feed,
obtained by tracing the entity and stop-time-update loops. -/
theorem mem_process_trip_updates
    {feed : FeedMessage} {obs : DateTime} {e : StopDelayEvent}
    (h : e ∈ process_trip_updates feed obs) :
    e.observed_at = obs ∧
    e.hour_of_day = obs.hour ∧
    e.day_of_week = obs.weekday ∧
    e.stop_id ≠ "" ∧
    e.is_on_time = is_on_time
      (match e.arrival_delay with
       | some d => some d
       | none => e.departure_delay) := by
  unfold process_trip_updates at h
  rw [List.mem_flatMap] at h
  obtain ⟨entity, -, hent⟩ := h
  cases hupd : entity.trip_update with
  | none => rw [hupd] at hent; cases hent
  | some tu =>
    rw [hupd] at hent
    simp only [processTripUpdate] at hent
    split at hent
    · cases hent
    · split at hent
      · cases hent
      · rw [List.mem_filterMap] at hent
        obtain ⟨stu, -, hsome⟩ := hent
        obtain ⟨h1, h2, h3, h4, -, -, h7⟩ := processStopTimeUpdate_spec hsome
        exact ⟨h1, h2, h3, h4, h7⟩

/-- C1: for every integer delay `d`, the classification of `d` is true iff
`EARLY_THRESHOLD ≤ d ≤ LATE_THRESHOLD` (defaults −60 and 300), and the
classification of an unknown delay is `none` — neither true nor false. -/
theorem is_on_time_iff :
    (∀ d : Int, is_on_time (some d) = some true ↔
      (EARLY_THRESHOLD ≤ d ∧ d ≤ LATE_THRESHOLD)) ∧
    (∀ d : Int, is_on_time (some d) = some true ↔ (-60 ≤ d ∧ d ≤ 300)) ∧
    is_on_time none = none ∧
    (∀ d : Int, is_on_time (some d) ≠ none) := by
  refine ⟨fun d => ?_, fun d => ?_, rfl, fun d => ?_⟩
  · simp [is_on_time]
  · simp [is_on_time, EARLY_THRESHOLD, LATE_THRESHOLD]
  · simp [is_on_time]

/-- C6: every emitted observation is classified from its arrival delay when
that is present, and from its departure delay exactly when the arrival delay
is absent. -/
theorem classification_prefers_arrival
    (feed : FeedMessage) (obs : DateTime) (e : StopDelayEvent)
    (h : e ∈ process_trip_updates feed obs) :
    (∀ d : Int, e.arrival_delay = some d → e.is_on_time = is_on_time (some d)) ∧
    (e.arrival_delay = none → e.is_on_time = is_on_time e.departure_delay) := by
  obtain ⟨-, -, -, -, hcls⟩ := mem_process_trip_updates h
  constructor
  · intro d hd
    rw [hcls, hd]
  · intro hd
    rw [hcls, hd]

/-- C8: every emitted observation takes `hour_of_day` and `day_of_week`
from the poll's own wall-clock instant (`observed_at`), whatever the feed's
predicted times and generation timestamp are. -/
theorem time_buckets_from_poll_clock
    (feed : FeedMessage) (obs : DateTime) (e : StopDelayEvent)
    (h : e ∈ process_trip_updates feed obs) :
    e.hour_of_day = obs.hour ∧ e.day_of_week = obs.weekday ∧
    e.observed_at = obs := by
  obtain ⟨h1, h2, h3, -, -⟩ := mem_process_trip_updates h
  exact ⟨h2, h3, h1⟩

/-- C10: an emitted observation's classification is `none` exactly when both
its arrival delay and its departure delay are absent; in particular a
non-null arrival delay forces a true-or-false classification. -/
theorem classification_none_iff_no_delay
    (feed : FeedMessage) (obs : DateTime) (e : StopDelayEvent)
    (h : e ∈ process_trip_updates feed obs) :
    (e.is_on_time = none ↔ (e.arrival_delay = none ∧ e.departure_delay = none)) ∧
    (e.arrival_delay ≠ none → e.is_on_time ≠ none) := by
  obtain ⟨-, -, -, -, hcls⟩ := mem_process_trip_updates h
  constructor
  · rw [hcls]
    cases e.arrival_delay with
    | some d => simp [is_on_time]
    | none =>
      cases e.departure_delay with
      | some d => simp [is_on_time]
      | none => simp [is_on_time]
  · intro hd habs
    rw [hcls] at habs
    cases harr : e.arrival_delay with
    | none => exact hd harr
    | some d => rw [harr] at habs; simp [is_on_time] at habs

/-- Witness for C6 at the fixture feed. -/
theorem classification_prefers_arrival_witness :
    eventW ∈ process_trip_updates feedW obsW ∧
    ((∀ d : Int, eventW.arrival_delay = some d →
        eventW.is_on_time = is_on_time (some d)) ∧
     (eventW.arrival_delay = none →
        eventW.is_on_time = is_on_time eventW.departure_delay)) := by
  have hmem : eventW ∈ process_trip_updates feedW obsW := by
    rw [process_feedW]; exact List.mem_singleton.mpr rfl
  exact ⟨hmem, classification_prefers_arrival feedW obsW eventW hmem⟩

/-- Witness for C8 at the fixture feed. -/
theorem time_buckets_from_poll_clock_witness :
    eventW ∈ process_trip_updates feedW obsW ∧
    (eventW.hour_of_day = obsW.hour ∧ eventW.day_of_week = obsW.weekday ∧
     eventW.observed_at = obsW) := by
  have hmem : eventW ∈ process_trip_updates feedW obsW := by
    rw [process_feedW]; exact List.mem_singleton.mpr rfl
  exact ⟨hmem, time_buckets_from_poll_clock feedW obsW eventW hmem⟩

/-- Witness for C10 at the fixture feed. -/
theorem classification_none_iff_no_delay_witness :
    eventW ∈ process_trip_updates feedW obsW ∧
    ((eventW.is_on_time = none ↔
        (eventW.arrival_delay = none ∧ eventW.departure_delay = none)) ∧
     (eventW.arrival_delay ≠ none → eventW.is_on_time ≠ none)) := by
  have hmem : eventW ∈ process_trip_updates feedW obsW := by
    rw [process_feedW]; exact List.mem_singleton.mpr rfl
  exact ⟨hmem, classification_none_iff_no_delay feedW obsW eventW hmem⟩

/-- C4: a trip update whose route id is missing, or whose service date is
absent or fails strict YYYYMMDD parsing, contributes zero observations —
all its stop-time updates are skipped — while the other entities of the
feed produce exactly what they would produce without it. -/
theorem trip_gating_skips_whole_trip
    (ts : Int) (obs : DateTime) (pre post : List FeedEntity) (tu : TripUpdate)
    (h : tu.trip.route_id = none ∨ tu.trip.start_date = none ∨
         (∀ s, tu.trip.start_date = some s → parse_service_date s = none)) :
    processTripUpdate obs ts tu = [] ∧
    process_trip_updates ⟨ts, pre ++ FeedEntity.mk (some tu) :: post⟩ obs =
      process_trip_updates ⟨ts, pre⟩ obs ++ process_trip_updates ⟨ts, post⟩ obs := by
  have hskip : processTripUpdate obs ts tu = [] := by
    unfold processTripUpdate
    cases hstart : tu.trip.start_date with
    | none => simp [hstart]
    | some s =>
      cases hparse : parse_service_date s with
      | none => simp [hstart, hparse]
      | some sd =>
        rcases h with hroute | hstart2 | hfail
        · simp [hstart, hparse, strFalsy, hroute]
        · rw [hstart] at hstart2; cases hstart2
        · rw [hfail s hstart] at hparse; cases hparse
  refine ⟨hskip, ?_⟩
  unfold process_trip_updates
  rw [List.flatMap_append, List.flatMap_cons]
  simp only [hskip, List.nil_append]

/-- Witness for C4: a trip update with no route id, carrying an otherwise
valid stop-time update, next to the valid fixture entity. -/
theorem trip_gating_skips_whole_trip_witness :
    (tuNoRoute.trip.route_id = none ∨ tuNoRoute.trip.start_date = none ∨
      (∀ s, tuNoRoute.trip.start_date = some s → parse_service_date s = none)) ∧
    (processTripUpdate obsW 1705330795 tuNoRoute = [] ∧
     process_trip_updates
        ⟨1705330795, [FeedEntity.mk (some tuW)] ++ FeedEntity.mk (some tuNoRoute) :: []⟩ obsW =
       process_trip_updates ⟨1705330795, [FeedEntity.mk (some tuW)]⟩ obsW ++
       process_trip_updates ⟨1705330795, []⟩ obsW) := by
  have h : tuNoRoute.trip.route_id = none ∨ tuNoRoute.trip.start_date = none ∨
      (∀ s, tuNoRoute.trip.start_date = some s → parse_service_date s = none) :=
    Or.inl rfl
  exact ⟨h, trip_gating_skips_whole_trip 1705330795 obsW
    [FeedEntity.mk (some tuW)] [] tuNoRoute h⟩

/-- C5: a stop-time update missing its stop id or its stop sequence yields
no observation, its siblings in the same trip are processed exactly as they
would be without it, and every emitted observation carries a (nonempty)
stop identifier. -/
theorem stop_gating_drops_single_update
    (obs : DateTime) (ft : Int) (tid rid : String) (dir : Option Nat)
    (vid : Option String) (sd : Date) (stu : StopTimeUpdate)
    (pre post : List StopTimeUpdate)
    (h : stu.stop_id = none ∨ stu.stop_sequence = none) :
    processStopTimeUpdate obs ft tid rid dir vid sd stu = none ∧
    (pre ++ stu :: post).filterMap
        (processStopTimeUpdate obs ft tid rid dir vid sd) =
      pre.filterMap (processStopTimeUpdate obs ft tid rid dir vid sd) ++
      post.filterMap (processStopTimeUpdate obs ft tid rid dir vid sd) ∧
    (∀ feed obs2 e, e ∈ process_trip_updates feed obs2 →
      e.stop_id ≠ "" ∧
      (∃ stu2 : StopTimeUpdate, stu2.stop_id = some e.stop_id ∧
        stu2.stop_sequence = some e.stop_sequence)) := by
  have hdrop : processStopTimeUpdate obs ft tid rid dir vid sd stu = none := by
    unfold processStopTimeUpdate
    rcases h with h1 | h2
    · rw [h1]
    · rw [h2]
      cases stu.stop_id <;> rfl
  refine ⟨hdrop, ?_, ?_⟩
  · rw [List.filterMap_append, List.filterMap_cons, hdrop]
  · intro feed obs2 e hmem
    obtain ⟨-, -, -, hne, -⟩ := mem_process_trip_updates hmem
    refine ⟨hne, ⟨some e.stop_id, some e.stop_sequence, none, none⟩, rfl, rfl⟩

/-- Witness for C5: a stop-time update with no stop sequence between two
copies of the valid fixture update. -/
theorem stop_gating_drops_single_update_witness :
    (stuNoSeq.stop_id = none ∨ stuNoSeq.stop_sequence = none) ∧
    (processStopTimeUpdate obsW 1705330795 "T1" "R1" none none ⟨2024, 1, 15⟩ stuNoSeq = none ∧
     ([stuW] ++ stuNoSeq :: [stuW]).filterMap
        (processStopTimeUpdate obsW 1705330795 "T1" "R1" none none ⟨2024, 1, 15⟩) =
      [stuW].filterMap (processStopTimeUpdate obsW 1705330795 "T1" "R1" none none ⟨2024, 1, 15⟩) ++
      [stuW].filterMap (processStopTimeUpdate obsW 1705330795 "T1" "R1" none none ⟨2024, 1, 15⟩) ∧
     (∀ feed obs2 e, e ∈ process_trip_updates feed obs2 →
       e.stop_id ≠ "" ∧
       (∃ stu2 : StopTimeUpdate, stu2.stop_id = some e.stop_id ∧
         stu2.stop_sequence = some e.stop_sequence))) := by
  have h : stuNoSeq.stop_id = none ∨ stuNoSeq.stop_sequence = none := Or.inr rfl
  exact ⟨h, stop_gating_drops_single_update obsW 1705330795 "T1" "R1" none none
    ⟨2024, 1, 15⟩ stuNoSeq [stuW] [stuW] h⟩

/-- C7: upserting two observations that share the natural key
(trip id, stop id, stop sequence, service date) leaves exactly one row for
that key, carrying the values of the second observation. -/
theorem upsert_latest_wins
    (table : List StopDelayEvent) (e₁ e₂ : StopDelayEvent)
    (h : naturalKey e₁ = naturalKey e₂) :
    (insert_stop_delay_events table [e₁, e₂]).1.filter
        (fun r => decide (naturalKey r = naturalKey e₂)) = [e₂] ∧
    (insert_stop_delay_events table [e₁, e₂]).1.filter
        (fun r => decide (naturalKey r = naturalKey e₁)) = [e₂] := by
  have hbase : ∀ (l : List StopDelayEvent) (e : StopDelayEvent),
      (upsertEvent l e).filter (fun r => decide (naturalKey r = naturalKey e)) = [e] := by
    intro l e
    unfold upsertEvent
    rw [List.filter_append, List.filter_filter]
    have hnil : (l.filter (fun r =>
        decide (naturalKey r = naturalKey e) && !decide (naturalKey r = naturalKey e))) = [] := by
      simp
    rw [hnil]
    simp
  have hins : (insert_stop_delay_events table [e₁, e₂]).1 =
      upsertEvent (upsertEvent table e₁) e₂ := rfl
  rw [hins, h, hbase]
  exact ⟨rfl, rfl⟩

/-- Witness for C7: two observations with the fixture key but different
delays; the second one's values survive. -/
theorem upsert_latest_wins_witness :
    naturalKey eventW = naturalKey eventW2 ∧
    ((insert_stop_delay_events [] [eventW, eventW2]).1.filter
        (fun r => decide (naturalKey r = naturalKey eventW2)) = [eventW2] ∧
     (insert_stop_delay_events [] [eventW, eventW2]).1.filter
        (fun r => decide (naturalKey r = naturalKey eventW)) = [eventW2]) := by
  have h : naturalKey eventW = naturalKey eventW2 := rfl
  exact ⟨h, upsert_latest_wins [] eventW eventW2 h⟩

/-- Projection fact: a computed daily summary carries its group's route. -/
theorem mkDailySummary_route_id (d : Date) (r : String)
    (g : List StopDelayEvent) : (mkDailySummary d r g).route_id = r := rfl

/-- Projection fact: a computed daily summary carries the target date. -/
theorem mkDailySummary_service_date (d : Date) (r : String)
    (g : List StopDelayEvent) : (mkDailySummary d r g).service_date = d := rfl

/-- Projection fact: a computed hourly summary carries the target date. -/
theorem mkHourlySummary_service_date (d : Date) (r : String) (hh : Nat)
    (g : List StopDelayEvent) : (mkHourlySummary d r hh g).service_date = d := rfl

/-- C2: every daily summary row for a date counts as early exactly the fact
rows of its date and route whose (arrival) delay is strictly below the early
threshold, as late exactly those strictly above the late threshold, and its
population are exactly the rows with a non-null delay; rows with a null
delay value are invisible to the aggregation (removing them changes no
summary). -/
theorem daily_summary_counts
    (facts : List StopDelayEvent) (d : Date) (s : DailyRouteSummary)
    (h : s ∈ computeDailySummaries facts d) :
    s.early_count = (facts.filter (fun e =>
      decide (e.service_date = d) && decide (e.route_id = s.route_id) &&
      (match e.arrival_delay with
       | some dl => decide (dl < EARLY_THRESHOLD)
       | none => false))).length ∧
    s.late_count = (facts.filter (fun e =>
      decide (e.service_date = d) && decide (e.route_id = s.route_id) &&
      (match e.arrival_delay with
       | some dl => decide (LATE_THRESHOLD < dl)
       | none => false))).length ∧
    s.total_observations = (facts.filter (fun e =>
      decide (e.service_date = d) && decide (e.route_id = s.route_id) &&
      !decide (e.arrival_delay = none))).length ∧
    computeDailySummaries facts d =
      computeDailySummaries
        (facts.filter (fun e => !decide (e.arrival_delay = none))) d := by
  have hpop : dailyPopulation
      (facts.filter (fun e => !decide (e.arrival_delay = none))) d =
      dailyPopulation facts d := by
    unfold dailyPopulation
    rw [List.filter_filter]
    apply List.filter_congr
    intro e he
    cases harr : e.arrival_delay <;> simp [harr]
  have hnull : computeDailySummaries facts d =
      computeDailySummaries
        (facts.filter (fun e => !decide (e.arrival_delay = none))) d := by
    unfold computeDailySummaries
    rw [hpop]
  unfold computeDailySummaries at h
  rw [List.mem_map] at h
  obtain ⟨r, -, rfl⟩ := h
  rw [mkDailySummary_route_id]
  refine ⟨?_, ?_, ?_, hnull⟩
  · show ((((dailyPopulation facts d).filter
      (fun e => decide (e.route_id = r))).filter isEarlyRow)).length = _
    congr 1
    unfold dailyPopulation
    rw [List.filter_filter, List.filter_filter]
    apply List.filter_congr
    intro e he
    cases harr : e.arrival_delay <;>
      simp [isEarlyRow, harr] <;>
      cases decide (e.service_date = d) <;>
      cases decide (e.route_id = r) <;> simp
  · show ((((dailyPopulation facts d).filter
      (fun e => decide (e.route_id = r))).filter isLateRow)).length = _
    congr 1
    unfold dailyPopulation
    rw [List.filter_filter, List.filter_filter]
    apply List.filter_congr
    intro e he
    cases harr : e.arrival_delay <;>
      simp [isLateRow, harr] <;>
      cases decide (e.service_date = d) <;>
      cases decide (e.route_id = r) <;> simp
  · show (((dailyPopulation facts d).filter
      (fun e => decide (e.route_id = r)))).length = _
    congr 1
    unfold dailyPopulation
    rw [List.filter_filter]
    apply List.filter_congr
    intro e he
    cases harr : e.arrival_delay <;>
      simp [harr] <;>
      cases decide (e.service_date = d) <;>
      cases decide (e.route_id = r) <;> simp

/-- Witness for C2: the fixture observation aggregated for its date. -/
theorem daily_summary_counts_witness :
    (mkDailySummary ⟨2024, 1, 15⟩ "R1" [eventW] ∈
      computeDailySummaries [eventW] ⟨2024, 1, 15⟩) ∧
    ((mkDailySummary ⟨2024, 1, 15⟩ "R1" [eventW]).early_count =
      ([eventW].filter (fun e =>
        decide (e.service_date = ⟨2024, 1, 15⟩) &&
        decide (e.route_id = (mkDailySummary ⟨2024, 1, 15⟩ "R1" [eventW]).route_id) &&
        (match e.arrival_delay with
         | some dl => decide (dl < EARLY_THRESHOLD)
         | none => false))).length ∧
     (mkDailySummary ⟨2024, 1, 15⟩ "R1" [eventW]).late_count =
      ([eventW].filter (fun e =>
        decide (e.service_date = ⟨2024, 1, 15⟩) &&
        decide (e.route_id = (mkDailySummary ⟨2024, 1, 15⟩ "R1" [eventW]).route_id) &&
        (match e.arrival_delay with
         | some dl => decide (LATE_THRESHOLD < dl)
         | none => false))).length ∧
     (mkDailySummary ⟨2024, 1, 15⟩ "R1" [eventW]).total_observations =
      ([eventW].filter (fun e =>
        decide (e.service_date = ⟨2024, 1, 15⟩) &&
        decide (e.route_id = (mkDailySummary ⟨2024, 1, 15⟩ "R1" [eventW]).route_id) &&
        !decide (e.arrival_delay = none))).length ∧
     computeDailySummaries [eventW] ⟨2024, 1, 15⟩ =
      computeDailySummaries
        ([eventW].filter (fun e => !decide (e.arrival_delay = none))) ⟨2024, 1, 15⟩) := by
  have hmem : mkDailySummary ⟨2024, 1, 15⟩ "R1" [eventW] ∈
      computeDailySummaries [eventW] ⟨2024, 1, 15⟩ := by
    have hc : computeDailySummaries [eventW] ⟨2024, 1, 15⟩ =
        [mkDailySummary ⟨2024, 1, 15⟩ "R1" [eventW]] := by rfl
    rw [hc]
    exact List.mem_singleton.mpr rfl
  exact ⟨hmem, daily_summary_counts [eventW] ⟨2024, 1, 15⟩ _ hmem⟩

/-- Every row computed by the daily aggregation statement carries the
aggregated date. -/
theorem computeDailySummaries_dates (facts : List StopDelayEvent) (d : Date) :
    ∀ s ∈ computeDailySummaries facts d, s.service_date = d := by
  intro s hs
  unfold computeDailySummaries at hs
  rw [List.mem_map] at hs
  obtain ⟨r, -, rfl⟩ := hs
  rfl

/-- Every row computed by the hourly aggregation statement carries the
aggregated date. -/
theorem computeHourlySummaries_dates (facts : List StopDelayEvent) (d : Date) :
    ∀ s ∈ computeHourlySummaries facts d, s.service_date = d := by
  intro s hs
  unfold computeHourlySummaries at hs
  rw [List.mem_map] at hs
  obtain ⟨k, -, rfl⟩ := hs
  rfl

/-- Unfolding of one `run_daily_aggregation` call into its delete-then-insert
effect on both summary tables and its returned counts. -/
theorem run_daily_aggregation_eq (db : DB) (d : Date) :
    run_daily_aggregation db d =
      ({ stop_delay_events := db.stop_delay_events
         daily_route_summary :=
           db.daily_route_summary.filter (fun s => !decide (s.service_date = d)) ++
             computeDailySummaries db.stop_delay_events d
         hourly_route_summary :=
           db.hourly_route_summary.filter (fun s => !decide (s.service_date = d)) ++
             computeHourlySummaries db.stop_delay_events d },
       ⟨d,
        ((db.daily_route_summary.filter (fun s => !decide (s.service_date = d)) ++
            computeDailySummaries db.stop_delay_events d).filter
          (fun s => decide (s.service_date = d))).length,
        ((db.hourly_route_summary.filter (fun s => !decide (s.service_date = d)) ++
            computeHourlySummaries db.stop_delay_events d).filter
          (fun s => decide (s.service_date = d))).length⟩) := rfl

/-- C3: running the daily aggregation job twice for the same date is the
same as running it once — the same summary rows and the same reported
counts, with no duplicates. -/
theorem aggregation_idempotent (db : DB) (d : Date) :
    run_daily_aggregation (run_daily_aggregation db d).1 d =
      run_daily_aggregation db d := by
  have hNd : (computeDailySummaries db.stop_delay_events d).filter
      (fun s => !decide (s.service_date = d)) = [] := by
    rw [List.filter_eq_nil_iff]
    intro s hs
    simp [computeDailySummaries_dates db.stop_delay_events d s hs]
  have hNh : (computeHourlySummaries db.stop_delay_events d).filter
      (fun s => !decide (s.service_date = d)) = [] := by
    rw [List.filter_eq_nil_iff]
    intro s hs
    simp [computeHourlySummaries_dates db.stop_delay_events d s hs]
  have hDd : (db.daily_route_summary.filter
        (fun s => !decide (s.service_date = d))).filter
      (fun s => !decide (s.service_date = d)) =
      db.daily_route_summary.filter (fun s => !decide (s.service_date = d)) := by
    rw [List.filter_filter]
    simp
  have hDh : (db.hourly_route_summary.filter
        (fun s => !decide (s.service_date = d))).filter
      (fun s => !decide (s.service_date = d)) =
      db.hourly_route_summary.filter (fun s => !decide (s.service_date = d)) := by
    rw [List.filter_filter]
    simp
  simp only [run_daily_aggregation_eq]
  simp only [List.filter_append, hNd, hNh, hDd, hDh, List.append_nil]

/-! ### Calendar lemmas for the backfill loop -/

/-- No month has more than 31 days. -/
theorem daysInMonth_le_31 (y m : Nat) : daysInMonth y m ≤ 31 := by
  unfold daysInMonth
  split
  · split <;> omega
  · split <;> omega

/-- No month has fewer than 28 days. -/
theorem daysInMonth_pos (y m : Nat) : 1 ≤ daysInMonth y m := by
  unfold daysInMonth
  split
  · split <;> omega
  · split <;> omega

/-- Numeric bounds extracted from date validity. -/
theorem Date.valid_bounds {dt : Date} (h : dt.valid) :
    1 ≤ dt.year ∧ 1 ≤ dt.month ∧ dt.month ≤ 12 ∧ 1 ≤ dt.day ∧ dt.day ≤ 31 := by
  obtain ⟨h1, h2, h3, h4, h5⟩ := h
  exact ⟨h1, h2, h3, h4, le_trans h5 (daysInMonth_le_31 dt.year dt.month)⟩

/-- The day after a valid date is a valid date. -/
theorem Date.succ_valid {dt : Date} (h : dt.valid) : dt.succ.valid := by
  obtain ⟨y, m, day⟩ := dt
  have hb : 1 ≤ y ∧ 1 ≤ m ∧ m ≤ 12 ∧ 1 ≤ day ∧ day ≤ daysInMonth y m := h
  have hpos2 := daysInMonth_pos y (m + 1)
  have hpos3 := daysInMonth_pos (y + 1) 1
  unfold Date.succ
  split
  next hlt =>
    have hlt2 : day < daysInMonth y m := hlt
    show 1 ≤ y ∧ 1 ≤ m ∧ m ≤ 12 ∧ 1 ≤ day + 1 ∧ day + 1 ≤ daysInMonth y m
    omega
  next hlt =>
    split
    next hm =>
      have hm2 : m < 12 := hm
      show 1 ≤ y ∧ 1 ≤ m + 1 ∧ m + 1 ≤ 12 ∧ 1 ≤ 1 ∧ 1 ≤ daysInMonth y (m + 1)
      omega
    next hm =>
      show 1 ≤ y + 1 ∧ 1 ≤ 1 ∧ 1 ≤ 12 ∧ 1 ≤ 1 ∧ 1 ≤ daysInMonth (y + 1) 1
      omega

/-- On valid dates, `Date.succ` strictly increases `Date.rank`. -/
theorem Date.rank_lt_succ {dt : Date} (h : dt.valid) :
    dt.rank < dt.succ.rank := by
  obtain ⟨y, m, day⟩ := dt
  have hb : 1 ≤ y ∧ 1 ≤ m ∧ m ≤ 12 ∧ 1 ≤ day ∧ day ≤ daysInMonth y m := h
  have h31 := daysInMonth_le_31 y m
  unfold Date.succ
  split
  next hlt =>
    have hlt2 : day < daysInMonth y m := hlt
    show y * 372 + (m - 1) * 31 + (day - 1) <
      y * 372 + (m - 1) * 31 + (day + 1 - 1)
    omega
  next hlt =>
    split
    next hm =>
      have hm2 : m < 12 := hm
      show y * 372 + (m - 1) * 31 + (day - 1) <
        y * 372 + (m + 1 - 1) * 31 + (1 - 1)
      omega
    next hm =>
      have hm2 : ¬ m < 12 := hm
      show y * 372 + (m - 1) * 31 + (day - 1) <
        (y + 1) * 372 + (1 - 1) * 31 + (1 - 1)
      omega

/-- On valid dates, the loop test `current <= end` agrees with `Date.rank`
order. -/
theorem Date.le_iff_rank {a b : Date} (ha : a.valid) (hb : b.valid) :
    a.le b = true ↔ a.rank ≤ b.rank := by
  obtain ⟨ha1, ha2, ha3, ha4, ha5⟩ := Date.valid_bounds ha
  obtain ⟨hb1, hb2, hb3, hb4, hb5⟩ := Date.valid_bounds hb
  unfold Date.le Date.rank
  rw [decide_eq_true_iff]
  omega

/-- Members of a fuel-bounded date range are valid and no earlier than the
range start. -/
theorem mem_dateRangeFuel {fuel : Nat} {cur endD x : Date}
    (hc : cur.valid) (hx : x ∈ dateRangeFuel fuel cur endD) :
    x.valid ∧ cur.rank ≤ x.rank := by
  induction fuel generalizing cur with
  | zero => cases hx
  | succ fuel ih =>
    unfold dateRangeFuel at hx
    by_cases hle : cur.le endD
    · rw [if_pos hle] at hx
      rcases List.mem_cons.mp hx with rfl | hx2
      · exact ⟨hc, le_refl _⟩
      · obtain ⟨hv, hr⟩ := ih (Date.succ_valid hc) hx2
        exact ⟨hv, le_trans (le_of_lt (Date.rank_lt_succ hc)) hr⟩
    · rw [if_neg hle] at hx
      cases hx

/-- A fuel-bounded date range is strictly ascending in rank. -/
theorem dateRangeFuel_sorted (fuel : Nat) (cur endD : Date)
    (hc : cur.valid) :
    (dateRangeFuel fuel cur endD).Pairwise (fun a b => a.rank < b.rank) := by
  induction fuel generalizing cur with
  | zero => exact List.Pairwise.nil
  | succ fuel ih =>
    unfold dateRangeFuel
    by_cases hle : cur.le endD
    · rw [if_pos hle]
      refine List.Pairwise.cons ?_ (ih cur.succ (Date.succ_valid hc))
      intro x hx
      obtain ⟨-, hr⟩ := mem_dateRangeFuel (Date.succ_valid hc) hx
      exact lt_of_lt_of_le (Date.rank_lt_succ hc) hr
    · rw [if_neg hle]
      exact List.Pairwise.nil

/-- Once the fuel covers the rank gap to the end date, adding more fuel does
not change the range. -/
theorem dateRangeFuel_irrel {endD : Date} (he : endD.valid) :
    ∀ f₁ f₂ cur, cur.valid → endD.rank + 1 - cur.rank ≤ f₁ →
      endD.rank + 1 - cur.rank ≤ f₂ →
      dateRangeFuel f₁ cur endD = dateRangeFuel f₂ cur endD := by
  intro f₁
  induction f₁ with
  | zero =>
    intro f₂ cur hc hg1 hg2
    have hlt : endD.rank < cur.rank := by omega
    have hnle : ¬ cur.le endD = true := by
      intro hle
      have := (Date.le_iff_rank hc he).mp hle
      omega
    cases f₂ with
    | zero => rfl
    | succ f₂ =>
      unfold dateRangeFuel
      rw [if_neg hnle]
  | succ f₁ ih =>
    intro f₂ cur hc hg1 hg2
    by_cases hle : cur.le endD = true
    · have hrank := (Date.le_iff_rank hc he).mp hle
      cases f₂ with
      | zero => omega
      | succ f₂ =>
        unfold dateRangeFuel
        rw [if_pos hle, if_pos hle]
        have hsucc := Date.rank_lt_succ hc
        exact congrArg (cur :: ·)
          (ih f₂ cur.succ (Date.succ_valid hc) (by omega) (by omega))
    · cases f₂ with
      | zero =>
        unfold dateRangeFuel
        rw [if_neg hle]
      | succ f₂ =>
        unfold dateRangeFuel
        rw [if_neg hle, if_neg hle]

/-- Faithfulness of the fuel embedding: `dateRange` satisfies exactly the
recurrence of the source's `while current_date <= end_date` loop. -/
theorem dateRange_unfold (start endD : Date)
    (hs : start.valid) (he : endD.valid) :
    dateRange start endD =
      if start.le endD then start :: dateRange start.succ endD else [] := by
  show dateRangeFuel (endD.rank + 1 - start.rank) start endD =
    if start.le endD then
      start :: dateRangeFuel (endD.rank + 1 - start.succ.rank) start.succ endD
    else []
  by_cases hle : start.le endD = true
  · have hrank := (Date.le_iff_rank hs he).mp hle
    have hgap : 1 ≤ endD.rank + 1 - start.rank := by omega
    rw [if_pos hle]
    cases hfuel : endD.rank + 1 - start.rank with
    | zero => omega
    | succ fuel =>
      have hstep : dateRangeFuel (fuel + 1) start endD =
          if start.le endD then start :: dateRangeFuel fuel start.succ endD
          else [] := rfl
      rw [hstep, if_pos hle]
      have hsucc := Date.rank_lt_succ hs
      exact congrArg (start :: ·)
        (dateRangeFuel_irrel he fuel (endD.rank + 1 - start.succ.rank)
          start.succ (Date.succ_valid hs) (by omega) (by omega))
  · rw [if_neg hle]
    have hrank : endD.rank < start.rank := by
      rcases Nat.lt_or_ge endD.rank start.rank with h | h
      · exact h
      · exact absurd ((Date.le_iff_rank hs he).mpr h) hle
    have hfuel : endD.rank + 1 - start.rank = 0 := by omega
    rw [hfuel]
    rfl

/-! ### Backfill loop lemmas -/

/-- Unfolding equation of `backfillLoop` on a cons cell. -/
theorem backfillLoop_cons (failDates : List Date) (d : Date) (ds : List Date)
    (db : DB) :
    backfillLoop failDates (d :: ds) db =
      if d ∈ failDates then (db, [], some d)
      else
        ((backfillLoop failDates ds (run_daily_aggregation db d).1).1,
         (run_daily_aggregation db d).2 ::
           (backfillLoop failDates ds (run_daily_aggregation db d).1).2.1,
         (backfillLoop failDates ds (run_daily_aggregation db d).1).2.2) := rfl

/-- Unfolding equation of `backfillOk` on a cons cell. -/
theorem backfillOk_cons (d : Date) (ds : List Date) (db : DB) :
    backfillOk (d :: ds) db =
      ((backfillOk ds (run_daily_aggregation db d).1).1,
       (run_daily_aggregation db d).2 ::
         (backfillOk ds (run_daily_aggregation db d).1).2) := rfl

/-- Aggregation never touches the fact table. -/
theorem run_preserves_facts (db : DB) (d : Date) :
    (run_daily_aggregation db d).1.stop_delay_events =
      db.stop_delay_events := rfl

/-- The per-date result of one aggregation run carries its date. -/
theorem run_result_date (db : DB) (d : Date) :
    (run_daily_aggregation db d).2.date = d := rfl

/-- After aggregating date `d`, the daily summary rows for `d` are exactly
the freshly computed ones. -/
theorem run_daily_rows_self (db : DB) (d : Date) :
    (run_daily_aggregation db d).1.daily_route_summary.filter
      (fun s => decide (s.service_date = d)) =
    computeDailySummaries db.stop_delay_events d := by
  rw [run_daily_aggregation_eq]
  simp only [List.filter_append, List.filter_filter]
  have h1 : db.daily_route_summary.filter
      (fun s => decide (s.service_date = d) && !decide (s.service_date = d)) = [] := by
    simp
  have h2 : (computeDailySummaries db.stop_delay_events d).filter
      (fun s => decide (s.service_date = d)) =
      computeDailySummaries db.stop_delay_events d := by
    rw [List.filter_eq_self]
    intro s hs
    simp [computeDailySummaries_dates db.stop_delay_events d s hs]
  rw [h1, h2, List.nil_append]

/-- After aggregating date `d`, the hourly summary rows for `d` are exactly
the freshly computed ones. -/
theorem run_hourly_rows_self (db : DB) (d : Date) :
    (run_daily_aggregation db d).1.hourly_route_summary.filter
      (fun s => decide (s.service_date = d)) =
    computeHourlySummaries db.stop_delay_events d := by
  rw [run_daily_aggregation_eq]
  simp only [List.filter_append, List.filter_filter]
  have h1 : db.hourly_route_summary.filter
      (fun s => decide (s.service_date = d) && !decide (s.service_date = d)) = [] := by
    simp
  have h2 : (computeHourlySummaries db.stop_delay_events d).filter
      (fun s => decide (s.service_date = d)) =
      computeHourlySummaries db.stop_delay_events d := by
    rw [List.filter_eq_self]
    intro s hs
    simp [computeHourlySummaries_dates db.stop_delay_events d s hs]
  rw [h1, h2, List.nil_append]

/-- Aggregating some other date `e` leaves the daily summary rows of date
`d` untouched. -/
theorem run_daily_rows_other (db : DB) {d e : Date} (hne : e ≠ d) :
    (run_daily_aggregation db e).1.daily_route_summary.filter
      (fun s => decide (s.service_date = d)) =
    db.daily_route_summary.filter (fun s => decide (s.service_date = d)) := by
  rw [run_daily_aggregation_eq]
  simp only [List.filter_append, List.filter_filter]
  have h1 : db.daily_route_summary.filter
      (fun s => decide (s.service_date = d) && !decide (s.service_date = e)) =
      db.daily_route_summary.filter (fun s => decide (s.service_date = d)) := by
    apply List.filter_congr
    intro s hs
    by_cases hsd : s.service_date = d
    · simp [hsd, Ne.symm hne]
    · simp [hsd]
  have h2 : (computeDailySummaries db.stop_delay_events e).filter
      (fun s => decide (s.service_date = d)) = [] := by
    rw [List.filter_eq_nil_iff]
    intro s hs
    simp [computeDailySummaries_dates db.stop_delay_events e s hs, hne]
  rw [h1, h2, List.append_nil]

/-- Aggregating some other date `e` leaves the hourly summary rows of date
`d` untouched. -/
theorem run_hourly_rows_other (db : DB) {d e : Date} (hne : e ≠ d) :
    (run_daily_aggregation db e).1.hourly_route_summary.filter
      (fun s => decide (s.service_date = d)) =
    db.hourly_route_summary.filter (fun s => decide (s.service_date = d)) := by
  rw [run_daily_aggregation_eq]
  simp only [List.filter_append, List.filter_filter]
  have h1 : db.hourly_route_summary.filter
      (fun s => decide (s.service_date = d) && !decide (s.service_date = e)) =
      db.hourly_route_summary.filter (fun s => decide (s.service_date = d)) := by
    apply List.filter_congr
    intro s hs
    by_cases hsd : s.service_date = d
    · simp [hsd, Ne.symm hne]
    · simp [hsd]
  have h2 : (computeHourlySummaries db.stop_delay_events e).filter
      (fun s => decide (s.service_date = d)) = [] := by
    rw [List.filter_eq_nil_iff]
    intro s hs
    simp [computeHourlySummaries_dates db.stop_delay_events e s hs, hne]
  rw [h1, h2, List.append_nil]

/-- A failure-free traversal does not change the fact table. -/
theorem backfillOk_facts (ds : List Date) (db : DB) :
    (backfillOk ds db).1.stop_delay_events = db.stop_delay_events := by
  induction ds generalizing db with
  | nil => rfl
  | cons d ds ih =>
    rw [backfillOk_cons]
    exact (ih (run_daily_aggregation db d).1).trans (run_preserves_facts db d)

/-- A failure-free traversal reports one result per date, in order. -/
theorem backfillOk_dates (ds : List Date) (db : DB) :
    (backfillOk ds db).2.map AggResult.date = ds := by
  induction ds generalizing db with
  | nil => rfl
  | cons d ds ih =>
    rw [backfillOk_cons]
    simp only [List.map_cons]
    rw [ih, run_result_date]

/-- A traversal of dates other than `d` leaves date `d`'s summary rows
untouched. -/
theorem backfillOk_rows_other (ds : List Date) (db : DB) (d : Date)
    (h : ∀ e ∈ ds, e ≠ d) :
    (backfillOk ds db).1.daily_route_summary.filter
        (fun s => decide (s.service_date = d)) =
      db.daily_route_summary.filter (fun s => decide (s.service_date = d)) ∧
    (backfillOk ds db).1.hourly_route_summary.filter
        (fun s => decide (s.service_date = d)) =
      db.hourly_route_summary.filter (fun s => decide (s.service_date = d)) := by
  induction ds generalizing db with
  | nil => exact ⟨rfl, rfl⟩
  | cons e ds ih =>
    obtain ⟨ihd, ihh⟩ := ih (run_daily_aggregation db e).1
      (fun x hx => h x (List.mem_cons_of_mem e hx))
    have hne : e ≠ d := h e (List.mem_cons_self e ds)
    constructor
    · rw [backfillOk_cons]
      exact ihd.trans (run_daily_rows_other db hne)
    · rw [backfillOk_cons]
      exact ihh.trans (run_hourly_rows_other db hne)

/-- After a failure-free traversal of a strictly ascending date list, each
visited date's summary rows are exactly those computed from the (unchanged)
fact table. -/
theorem backfillOk_rows_mem (ds : List Date) (db : DB) (d : Date)
    (hmem : d ∈ ds) (hsort : ds.Pairwise (fun a b => a.rank < b.rank)) :
    (backfillOk ds db).1.daily_route_summary.filter
        (fun s => decide (s.service_date = d)) =
      computeDailySummaries db.stop_delay_events d ∧
    (backfillOk ds db).1.hourly_route_summary.filter
        (fun s => decide (s.service_date = d)) =
      computeHourlySummaries db.stop_delay_events d := by
  induction ds generalizing db with
  | nil => cases hmem
  | cons e ds ih =>
    rw [List.pairwise_cons] at hsort
    obtain ⟨hhead, htail⟩ := hsort
    rcases List.mem_cons.mp hmem with rfl | hmem2
    · have hne : ∀ x ∈ ds, x ≠ d := by
        intro x hx heq
        have := hhead x hx
        rw [heq] at this
        omega
      obtain ⟨hd2, hh2⟩ := backfillOk_rows_other ds
        (run_daily_aggregation db d).1 d hne
      constructor
      · rw [backfillOk_cons]
        exact hd2.trans (run_daily_rows_self db d)
      · rw [backfillOk_cons]
        exact hh2.trans (run_hourly_rows_self db d)
    · obtain ⟨ihd, ihh⟩ := ih (run_daily_aggregation db e).1 hmem2 htail
      constructor
      · rw [backfillOk_cons]
        rw [ihd, run_preserves_facts]
      · rw [backfillOk_cons]
        rw [ihh, run_preserves_facts]

/-- In the absence of failing dates the loop just performs the traversal. -/
theorem backfillLoop_ok (failDates : List Date) (ds : List Date) (db : DB)
    (h : ∀ d ∈ ds, d ∉ failDates) :
    backfillLoop failDates ds db =
      ((backfillOk ds db).1, (backfillOk ds db).2, none) := by
  induction ds generalizing db with
  | nil => rfl
  | cons d ds ih =>
    rw [backfillLoop_cons, backfillOk_cons]
    rw [if_neg (h d (List.mem_cons_self d ds))]
    rw [ih (run_daily_aggregation db d).1
      (fun x hx => h x (List.mem_cons_of_mem d hx))]

/-- The loop traverses the failure-free head of the list and stops, with the
accumulated state, at the first failing date. -/
theorem backfillLoop_split (failDates : List Date) (ds₁ : List Date)
    (f : Date) (ds₂ : List Date) (db : DB)
    (h1 : ∀ d ∈ ds₁, d ∉ failDates) (hf : f ∈ failDates) :
    backfillLoop failDates (ds₁ ++ f :: ds₂) db =
      ((backfillOk ds₁ db).1, (backfillOk ds₁ db).2, some f) := by
  induction ds₁ generalizing db with
  | nil =>
    rw [List.nil_append, backfillLoop_cons, if_pos hf]
    rfl
  | cons d ds₁ ih =>
    rw [List.cons_append, backfillLoop_cons, backfillOk_cons]
    rw [if_neg (h1 d (List.mem_cons_self d ds₁))]
    rw [ih (run_daily_aggregation db d).1
      (fun x hx => h1 x (List.mem_cons_of_mem d hx))]

/-- Splitting a list at the first occurrence of a member. -/
theorem takeWhile_ne_split {α : Type} [DecidableEq α] {l : List α} {f : α}
    (hf : f ∈ l) :
    l = l.takeWhile (fun x => decide (x ≠ f)) ++
      f :: (l.dropWhile (fun x => decide (x ≠ f))).tail := by
  induction l with
  | nil => cases hf
  | cons a l ih =>
    by_cases ha : a = f
    · subst ha
      simp [List.takeWhile_cons, List.dropWhile_cons]
    · have hf2 : f ∈ l := by
        rcases List.mem_cons.mp hf with heq | hmem
        · exact absurd heq.symm ha
        · exact hmem
      have hd : decide (a ≠ f) = true := by simp [ha]
      rw [List.takeWhile_cons, List.dropWhile_cons, if_pos hd, if_pos hd]
      rw [List.cons_append]
      exact congrArg (a :: ·) (ih hf2)

/-- C9: a backfill over an inclusive date range whose first failing date is
`f` reports the failure at `f`; it processes exactly the range dates before
`f`, in strictly ascending order, and no date at or after `f`; the fact
table is untouched and every processed date's daily and hourly summary rows
are exactly the ones computed for it (they persist in the final state). -/
theorem backfill_stops_at_first_failure
    (db : DB) (failDates : List Date) (start endD f : Date)
    (hs : start.valid) (he : endD.valid)
    (hf : f ∈ dateRange start endD) (hfail : f ∈ failDates)
    (hfirst : ∀ d ∈ dateRange start endD, d ∈ failDates → f.rank ≤ d.rank) :
    (backfill_aggregations failDates start endD db).2.2 = some f ∧
    (backfill_aggregations failDates start endD db).2.1.map AggResult.date =
      processedDates start endD f ∧
    (processedDates start endD f).Pairwise (fun a b => a.rank < b.rank) ∧
    (∀ r ∈ (backfill_aggregations failDates start endD db).2.1,
      r.date.rank < f.rank) ∧
    (backfill_aggregations failDates start endD db).1.stop_delay_events =
      db.stop_delay_events ∧
    (∀ d ∈ processedDates start endD f,
      (backfill_aggregations failDates start endD db).1.daily_route_summary.filter
          (fun s => decide (s.service_date = d)) =
        computeDailySummaries db.stop_delay_events d ∧
      (backfill_aggregations failDates start endD db).1.hourly_route_summary.filter
          (fun s => decide (s.service_date = d)) =
        computeHourlySummaries db.stop_delay_events d) := by
  have hsplit : dateRange start endD =
      processedDates start endD f ++
        f :: ((dateRange start endD).dropWhile (fun x => decide (x ≠ f))).tail :=
    takeWhile_ne_split hf
  have hpw : (dateRange start endD).Pairwise (fun a b => a.rank < b.rank) :=
    dateRangeFuel_sorted (endD.rank + 1 - start.rank) start endD hs
  have hpw2 : (processedDates start endD f).Pairwise
      (fun a b => a.rank < b.rank) :=
    List.Pairwise.sublist (List.takeWhile_sublist _) hpw
  have hranks : ∀ d ∈ processedDates start endD f, d.rank < f.rank := by
    intro d hd
    have hpairs : (processedDates start endD f ++
        f :: ((dateRange start endD).dropWhile
          (fun x => decide (x ≠ f))).tail).Pairwise
        (fun a b => a.rank < b.rank) := hsplit ▸ hpw
    rw [List.pairwise_append] at hpairs
    exact hpairs.2.2 d hd f (List.mem_cons_self f _)
  have hok : ∀ d ∈ processedDates start endD f, d ∉ failDates := by
    intro d hd hdfail
    have hdmem : d ∈ dateRange start endD :=
      (List.takeWhile_sublist _).subset hd
    have hge := hfirst d hdmem hdfail
    have hlt := hranks d hd
    omega
  have hmain : backfill_aggregations failDates start endD db =
      ((backfillOk (processedDates start endD f) db).1,
       (backfillOk (processedDates start endD f) db).2, some f) := by
    unfold backfill_aggregations
    conv_lhs => rw [hsplit]
    exact backfillLoop_split failDates _ f _ db hok hfail
  refine ⟨?_, ?_, hpw2, ?_, ?_, ?_⟩
  · rw [hmain]
  · rw [hmain]
    exact backfillOk_dates _ db
  · intro r hr
    rw [hmain] at hr
    have hmem2 : r.date ∈ (backfillOk (processedDates start endD f) db).2.map
        AggResult.date := List.mem_map_of_mem AggResult.date hr
    rw [backfillOk_dates] at hmem2
    exact hranks r.date hmem2
  · rw [hmain]
    exact backfillOk_facts _ db
  · intro d hd
    rw [hmain]
    exact backfillOk_rows_mem _ db d hd hpw2

/-- Witness for C9: a three-day backfill over the fixture database failing
on the middle day. -/
theorem backfill_stops_at_first_failure_witness :
    (startW.valid ∧ endW.valid ∧ failW ∈ dateRange startW endW ∧
      failW ∈ [failW] ∧
      (∀ d ∈ dateRange startW endW, d ∈ [failW] → failW.rank ≤ d.rank)) ∧
    ((backfill_aggregations [failW] startW endW dbW).2.2 = some failW ∧
     (backfill_aggregations [failW] startW endW dbW).2.1.map AggResult.date =
       processedDates startW endW failW ∧
     (processedDates startW endW failW).Pairwise
       (fun a b => a.rank < b.rank) ∧
     (∀ r ∈ (backfill_aggregations [failW] startW endW dbW).2.1,
       r.date.rank < failW.rank) ∧
     (backfill_aggregations [failW] startW endW dbW).1.stop_delay_events =
       dbW.stop_delay_events ∧
     (∀ d ∈ processedDates startW endW failW,
       (backfill_aggregations [failW] startW endW dbW).1.daily_route_summary.filter
           (fun s => decide (s.service_date = d)) =
         computeDailySummaries dbW.stop_delay_events d ∧
       (backfill_aggregations [failW] startW endW dbW).1.hourly_route_summary.filter
           (fun s => decide (s.service_date = d)) =
         computeHourlySummaries dbW.stop_delay_events d)) := by
  have h1 : startW.valid := by decide
  have h2 : endW.valid := by decide
  have h3 : failW ∈ dateRange startW endW := by decide
  have h4 : failW ∈ [failW] := by decide
  have h5 : ∀ d ∈ dateRange startW endW, d ∈ [failW] → failW.rank ≤ d.rank := by
    decide
  exact ⟨⟨h1, h2, h3, h4, h5⟩,
    backfill_stops_at_first_failure dbW [failW] startW endW failW h1 h2 h3 h4 h5⟩

end HalifaxOTP
